import Mathlib

/-!
Verification development for the logpulse terminal log analyzer.

The definitions below are a shallow embedding of the Rust sources:
`src/app.rs` (entry store, selection, viewport operations), `src/parser.rs`
(format parsers, level classifier, auto-detection) and the ingest-drain
portion of the scheduler loop in `src/main.rs`.

Modelling conventions:
* `VecDeque<LogEntry>` becomes `List LogEntry` with index 0 the front
  (oldest).  `push_back` is `++ [e]`, `pop_front` is `tail`,
  `push_front` is cons, `pop_back` is `dropLast`.
* `u64`/`usize` counters become `Nat` (`saturating_sub` is `Nat`
  subtraction).
* Compiled regular expressions (the external regex crate) are opaque:
  a compiled filter or search pattern is a `String → Bool` matcher, and
  the capture groups of the five format regexes are supplied by a
  `RegexCaps` record of capture functions.  All code around these
  oracles is translated from the source.
* `Instant`-valued fields (EPS tick clock, status timestamps) take no
  part in any of the verified operations and are omitted.
-/

namespace Logpulse

/-- Maximum number of retained log lines, `MAX_LOG_LINES` in `app.rs`. -/
def MAX_LOG_LINES : Nat := 10000

/-- Batch drain cap per scheduler iteration, from `run_tui` in `main.rs`. -/
def BATCH_DRAIN : Nat := 5000

/-- Severity levels, `LogLevel` in `app.rs`. -/
inductive LogLevel where
  | Trace
  | Debug
  | Info
  | Warn
  | Error
  | Fatal
  | Unknown
deriving DecidableEq, Repr

/-- A parsed log entry, `LogEntry` in `app.rs`. -/
structure LogEntry where
  raw : String
  level : LogLevel
  timestamp : Option String
  message : Option String
  metadata : Option String
  extra_lines : List String
deriving DecidableEq, Repr

/-- Application state, `App` in `app.rs`, restricted to the fields used by
the entry store, selection and viewport operations.  `filter_regex` and
`search_regex` hold the compiled matcher (`Regex::is_match`) as an opaque
predicate; `history_has_more` models
`history.as_ref().is_some_and(|h| h.has_more())`. -/
structure App where
  logs : List LogEntry
  scroll_offset : Nat
  selected_index : Nat
  frozen : Bool
  error_only : Bool
  filter_regex : Option (String → Bool)
  error_count : Nat
  total_count : Nat
  eps_counter : Nat
  history_has_more : Bool
  needs_history_load : Bool
  horizontal_scroll : Nat
  has_structured_logs : Bool
  search_regex : Option (String → Bool)

/-- Initial state, `App::new` in `app.rs`. -/
def App.new : App :=
  { logs := []
    scroll_offset := 0
    selected_index := 0
    frozen := false
    error_only := false
    filter_regex := none
    error_count := 0
    total_count := 0
    eps_counter := 0
    history_has_more := false
    needs_history_load := false
    horizontal_scroll := 0
    has_structured_logs := false
    search_regex := none }

/-- The non-grouping path of `App::add_log` (`app.rs` lines 140-152):
bump counters, evict the head when full (adjusting a positive scroll
offset), push the entry at the tail. -/
def App.append_entry (a : App) (entry : LogEntry) : App :=
  let a := if entry.level = LogLevel.Error ∨ entry.level = LogLevel.Fatal then
      { a with error_count := a.error_count + 1 }
    else a
  let a := { a with total_count := a.total_count + 1, eps_counter := a.eps_counter + 1 }
  let a := if a.logs.length ≥ MAX_LOG_LINES then
      { a with logs := a.logs.tail,
               scroll_offset := if a.scroll_offset > 0 then a.scroll_offset - 1
                 else a.scroll_offset }
    else a
  { a with logs := a.logs ++ [entry] }

/-- `App::add_log` (`app.rs` lines 123-153): set the structured flag on a
known-level entry, then either attach an `Unknown` continuation line to a
known-level tail entry, or append normally. -/
def App.add_log (a : App) (entry : LogEntry) : App :=
  let a := if entry.level ≠ LogLevel.Unknown then { a with has_structured_logs := true }
    else a
  if a.has_structured_logs = true ∧ entry.level = LogLevel.Unknown then
    match a.logs.getLast? with
    | some last =>
      if last.level ≠ LogLevel.Unknown then
        { a with logs := a.logs.dropLast ++
            [{ last with extra_lines := last.extra_lines ++ [entry.raw] }] }
      else a.append_entry entry
    | none => a.append_entry entry
  else a.append_entry entry

/-- `App::matches_filter` in `app.rs`. -/
def App.matches_filter (a : App) (entry : LogEntry) : Bool :=
  if a.error_only = true ∧ ¬(entry.level = LogLevel.Error ∨ entry.level = LogLevel.Fatal) then
    false
  else
    match a.filter_regex with
    | some re => re entry.raw || entry.extra_lines.any re
    | none => true

/-- `App::visible_logs` in `app.rs`; the original index carried by the Rust
version is dropped because only the position inside the visible list is
consumed by the callers modelled here. -/
def App.visible_logs (a : App) : List LogEntry :=
  a.logs.filter a.matches_filter

/-- `App::visible_count` in `app.rs`. -/
def App.visible_count (a : App) : Nat :=
  (a.logs.filter a.matches_filter).length

/-- `App::clamp_selection` in `app.rs`. -/
def App.clamp_selection (a : App) : App :=
  let count := a.visible_count
  if count = 0 then { a with selected_index := 0 }
  else if a.selected_index ≥ count then { a with selected_index := count - 1 }
  else a

/-- `App::clear_logs` in `app.rs`. -/
def App.clear_logs (a : App) : App :=
  { a with logs := [], scroll_offset := 0, selected_index := 0 }

/-- `App::scroll_down` in `app.rs`. -/
def App.scroll_down (a : App) : App :=
  let count := a.visible_count
  if 0 < count ∧ a.selected_index < count - 1 then
    { a with selected_index := a.selected_index + 1 }
  else a

/-- `App::scroll_up` in `app.rs`. -/
def App.scroll_up (a : App) : App :=
  if 0 < a.selected_index then { a with selected_index := a.selected_index - 1 }
  else if a.history_has_more then { a with needs_history_load := true }
  else a

/-- `App::page_down` in `app.rs`. -/
def App.page_down (a : App) (page_size : Nat) : App :=
  let count := a.visible_count
  if 0 < count then
    { a with selected_index := min (a.selected_index + page_size) (count - 1) }
  else a

/-- `App::page_up` in `app.rs` (`saturating_sub` is `Nat` subtraction). -/
def App.page_up (a : App) (page_size : Nat) : App :=
  let a := { a with selected_index := a.selected_index - page_size }
  if a.selected_index = 0 ∧ a.history_has_more then
    { a with needs_history_load := true }
  else a

/-- `App::jump_to_start` in `app.rs`. -/
def App.jump_to_start (a : App) : App :=
  let a := { a with selected_index := 0 }
  if a.history_has_more then { a with needs_history_load := true } else a

/-- `App::jump_to_end` in `app.rs`. -/
def App.jump_to_end (a : App) : App :=
  let count := a.visible_count
  if 0 < count then { a with selected_index := count - 1 } else a

/-- `App::scroll_right` in `app.rs`. -/
def App.scroll_right (a : App) : App :=
  { a with horizontal_scroll := a.horizontal_scroll + 20 }

/-- `App::scroll_left` in `app.rs`. -/
def App.scroll_left (a : App) : App :=
  { a with horizontal_scroll := a.horizontal_scroll - 20 }

/-- One turn of the prepend loop body in `App::prepend_logs` (`app.rs`
lines 274-279): push at the front, evict the tail when over capacity. -/
def prependStep (logs : List LogEntry) (e : LogEntry) : List LogEntry :=
  let logs := e :: logs
  if logs.length > MAX_LOG_LINES then logs.dropLast else logs

/-- `App::prepend_logs` in `app.rs` (lines 269-281). -/
def App.prepend_logs (a : App) (entries : List LogEntry) : App :=
  let count := entries.length
  if count = 0 then a
  else
    { a with logs := entries.reverse.foldl prependStep a.logs,
             selected_index := count }

/-- The handling of the `e` key in `event.rs` (lines 156-159): toggle
`error_only` and clamp the selection. -/
def App.toggle_error_only (a : App) : App :=
  ({ a with error_only := !a.error_only }).clamp_selection

/-- Committing a filter edit (`event.rs` lines 24-34): install the
recompiled matcher and clamp the selection. -/
def App.commit_filter (a : App) (m : Option (String → Bool)) : App :=
  ({ a with filter_regex := m }).clamp_selection

/-- Predicate matched by `App::search_next` and `App::search_prev`
against one entry in `app.rs`. -/
def searchMatches (re : String → Bool) (entry : LogEntry) : Bool :=
  re entry.raw || entry.extra_lines.any re

/-- `App::search_next` in `app.rs` (lines 295-312). -/
def App.search_next (a : App) : App :=
  match a.search_regex with
  | none => a
  | some re =>
    let visible := a.visible_logs
    if visible.length = 0 then a
    else
      let start := a.selected_index + 1
      match (List.range visible.length).find? (fun i =>
          match visible.get? ((start + i) % visible.length) with
          | some entry => searchMatches re entry
          | none => false) with
      | some i => { a with selected_index := (start + i) % visible.length }
      | none => a

/-- `App::search_prev` in `app.rs` (lines 314-335). -/
def App.search_prev (a : App) : App :=
  match a.search_regex with
  | none => a
  | some re =>
    let visible := a.visible_logs
    if visible.length = 0 then a
    else
      let start := if a.selected_index = 0 then visible.length - 1
        else a.selected_index - 1
      match (List.range visible.length).find? (fun i =>
          match visible.get? ((start + visible.length - i) % visible.length) with
          | some entry => searchMatches re entry
          | none => false) with
      | some i => { a with selected_index := (start + visible.length - i) % visible.length }
      | none => a

/-- Boolean substring check on character lists: does the needle occur as a
prefix of the haystack? -/
def isPrefixCh : List Char → List Char → Bool
  | [], _ => true
  | _ :: _, [] => false
  | c :: cs, d :: ds => c = d && isPrefixCh cs ds

/-- Boolean substring check on character lists (occurrence anywhere). -/
def containsCh (hay needle : List Char) : Bool :=
  match hay with
  | [] => isPrefixCh needle []
  | _ :: rest => isPrefixCh needle hay || containsCh rest needle

/-- Substring containment, the model of Rust `str::contains` with a
literal needle.  Byte-level occurrence of valid UTF-8 inside valid UTF-8
is always character aligned, so the character-list check coincides. -/
def containsSub (hay needle : String) : Bool :=
  containsCh hay.data needle.data

/-- Per-entry hit test of `App::jump_to_time`: the parsed timestamp is
checked first when present, and the raw line is checked as a fallback. -/
def jumpMatches (q : String) (entry : LogEntry) : Bool :=
  (match entry.timestamp with
   | some ts => containsSub ts q
   | none => false) || containsSub entry.raw q

/-- The scan loop of `App::jump_to_time` (`app.rs` lines 356-371) over the
visible entries, carrying the enumeration index. -/
def jumpFind (q : String) : List LogEntry → Nat → Option Nat
  | [], _ => none
  | entry :: rest, idx =>
    match entry.timestamp with
    | some ts =>
      if containsSub ts q then some idx
      else if containsSub entry.raw q then some idx
      else jumpFind q rest (idx + 1)
    | none =>
      if containsSub entry.raw q then some idx
      else jumpFind q rest (idx + 1)

/-- `App::jump_to_time` in `app.rs` (lines 354-372). -/
def App.jump_to_time (a : App) (time_str : String) : App :=
  match jumpFind time_str a.visible_logs 0 with
  | some idx => { a with selected_index := idx, frozen := true }
  | none => a

/-- ASCII lowercasing of one character, the per-byte
`u8::to_ascii_lowercase` used by `eq_ignore_ascii_case` in `parser.rs`. -/
def asciiLower (c : Char) : Char :=
  if 'A' ≤ c ∧ c ≤ 'Z' then Char.ofNat (c.toNat + 32) else c

/-- `contains_ci` in `parser.rs`: ASCII-case-insensitive substring test.
The Rust version slides a byte window; for the ASCII needles used by the
level classifier a byte-window match is always character aligned, so the
character-level check below coincides. -/
def contains_ci (haystack needle : String) : Bool :=
  containsCh (haystack.data.map asciiLower) (needle.data.map asciiLower)

/-- `detect_level` in `parser.rs`. -/
def detect_level (text : String) : LogLevel :=
  if contains_ci text "FATAL" || contains_ci text "EMERGENCY" ||
      contains_ci text "CRITICAL" then LogLevel.Fatal
  else if contains_ci text "ERROR" || contains_ci text "ERR" then LogLevel.Error
  else if contains_ci text "WARN" || contains_ci text "WARNING" then LogLevel.Warn
  else if contains_ci text "INFO" then LogLevel.Info
  else if contains_ci text "DEBUG" || contains_ci text "DBG" then LogLevel.Debug
  else if contains_ci text "TRACE" then LogLevel.Trace
  else LogLevel.Unknown

/-- Capture results of the compiled regular expressions of `parser.rs`.
The regex engine is an external crate, so each `Regex::captures` call is
an opaque function from the line to its capture groups; `is_match` of the
same regex is `Option.isSome` of `captures`.  Fields follow the statics
in `parser.rs`: `laravel` returns groups (timestamp, level, message) of
LARAVEL_RE, `django` returns (timestamp, level, logger, message) of
DJANGO_RE, `go_slog` returns (timestamp, level, message) of GO_SLOG_RE,
`go_std` returns (timestamp, rest) of GO_STD_RE, `nginx` returns
(host, timestamp, request, status, size) of NGINX_RE, and `json_level`
and `json_msg` return the single group of JSON_LEVEL_RE and JSON_MSG_RE. -/
structure RegexCaps where
  laravel : String → Option (String × String × String)
  django : String → Option (String × String × String × String)
  go_slog : String → Option (String × String × String)
  go_std : String → Option (String × String)
  nginx : String → Option (String × String × String × String × String)
  json_level : String → Option String
  json_msg : String → Option String

/-- The three operations of the `LogParser` trait in `parser.rs`. -/
structure ParserImpl where
  name : String
  can_parse : String → Bool
  parse : String → LogEntry

/-- `fallback_parse` in `parser.rs`. -/
def fallback_parse (line : String) : LogEntry :=
  { raw := line
    level := detect_level line
    timestamp := none
    message := some line
    metadata := none
    extra_lines := [] }

/-- Whitespace trim on both ends of a character list, the model of
`str::trim` (restricted to ASCII whitespace, which is all the properties
proved here depend on). -/
def trimChars (l : List Char) : List Char :=
  ((l.dropWhile Char.isWhitespace).reverse.dropWhile Char.isWhitespace).reverse

/-- The opening brace character. -/
def lbrace : Char := Char.ofNat 123

/-- The closing brace character. -/
def rbrace : Char := Char.ofNat 125

/-- `JsonParser` in `parser.rs`.  `can_parse` renders
`line.trim().starts_with(lbrace) && line.trim().ends_with(rbrace)` on the
character list so that it evaluates inside the kernel. -/
def JsonParser (caps : RegexCaps) : ParserImpl :=
  { name := "JSON"
    can_parse := fun line =>
      let trimmed := trimChars line.data
      decide (trimmed.head? = some lbrace) && decide (trimmed.getLast? = some rbrace)
    parse := fun line =>
      let level := match caps.json_level line with
        | some c => detect_level c
        | none => detect_level line
      let message := caps.json_msg line
      { raw := line
        level := level
        timestamp := none
        message := message
        metadata := some line
        extra_lines := [] } }

/-- `LaravelParser` in `parser.rs`. -/
def LaravelParser (caps : RegexCaps) : ParserImpl :=
  { name := "Laravel"
    can_parse := fun line => (caps.laravel line).isSome
    parse := fun line =>
      match caps.laravel line with
      | some (ts, lvl, msg) =>
        { raw := line
          level := detect_level lvl
          timestamp := some ts
          message := some msg
          metadata := none
          extra_lines := [] }
      | none => fallback_parse line }

/-- `DjangoParser` in `parser.rs`. -/
def DjangoParser (caps : RegexCaps) : ParserImpl :=
  { name := "Django"
    can_parse := fun line => (caps.django line).isSome
    parse := fun line =>
      match caps.django line with
      | some (ts, lvl, logger, msg) =>
        { raw := line
          level := detect_level lvl
          timestamp := some ts
          message := some msg
          metadata := some logger
          extra_lines := [] }
      | none => fallback_parse line }

/-- `GoLogParser` in `parser.rs`. -/
def GoLogParser (caps : RegexCaps) : ParserImpl :=
  { name := "Go"
    can_parse := fun line => (caps.go_slog line).isSome || (caps.go_std line).isSome
    parse := fun line =>
      match caps.go_slog line with
      | some (ts, lvl, msg) =>
        { raw := line
          level := detect_level lvl
          timestamp := some ts
          message := some msg
          metadata := none
          extra_lines := [] }
      | none =>
        match caps.go_std line with
        | some (ts, rest) =>
          { raw := line
            level := detect_level rest
            timestamp := some ts
            message := some rest
            metadata := none
            extra_lines := [] }
        | none => fallback_parse line }

/-- Status-string parsing in `NginxApacheParser::parse`:
`caps[4].parse::<u16>().unwrap_or(0)`. -/
def parseStatus (s : String) : Nat :=
  match s.toNat? with
  | some n => if n < 65536 then n else 0
  | none => 0

/-- `NginxApacheParser` in `parser.rs`. -/
def NginxApacheParser (caps : RegexCaps) : ParserImpl :=
  { name := "Nginx/Apache"
    can_parse := fun line => (caps.nginx line).isSome
    parse := fun line =>
      match caps.nginx line with
      | some (host, ts, req, statusStr, _size) =>
        let status := parseStatus statusStr
        let level :=
          if 200 ≤ status ∧ status ≤ 299 then LogLevel.Info
          else if 300 ≤ status ∧ status ≤ 399 then LogLevel.Debug
          else if 400 ≤ status ∧ status ≤ 499 then LogLevel.Warn
          else if 500 ≤ status ∧ status ≤ 599 then LogLevel.Error
          else LogLevel.Unknown
        { raw := line
          level := level
          timestamp := some ts
          message := some (req ++ " -> " ++ toString status)
          metadata := some host
          extra_lines := [] }
      | none => fallback_parse line }

/-- `PlainParser` in `parser.rs`. -/
def PlainParser : ParserImpl :=
  { name := "Plain"
    can_parse := fun _ => true
    parse := fallback_parse }

/-- The fixed probe list built inside `detect_parser` in `parser.rs`. -/
def probeParsers (caps : RegexCaps) : List ParserImpl :=
  [JsonParser caps, LaravelParser caps, DjangoParser caps,
   GoLogParser caps, NginxApacheParser caps]

/-- Acceptance score of one parser over the sample lines, the
`sample_lines.iter().filter(|l| parser.can_parse(l)).count()` expression
in `parser.rs`. -/
def score (samples : List String) (p : ParserImpl) : Nat :=
  (samples.filter (fun l => p.can_parse l)).length

/-- One turn of the best-score selection loop in `detect_parser`. -/
def detectStep (samples : List String) (acc : Option ParserImpl × Nat)
    (p : ParserImpl) : Option ParserImpl × Nat :=
  let s := score samples p
  if s > acc.2 then (some p, s) else acc

/-- The auto-detection routine `detect_parser` in `parser.rs`
(lines 272-297); the unreachable `unwrap` is rendered as `getD`. -/
def detectBest (caps : RegexCaps) (samples : List String) : ParserImpl :=
  let r := (probeParsers caps).foldl (detectStep samples)
    ((none : Option ParserImpl), 0)
  if r.2 > 0 then r.1.getD PlainParser else PlainParser

/-- The bounded drain loop of one scheduler iteration (`main.rs` lines
320-328), with the remaining budget of `5000 - drained` lines as fuel.
Returns the state after the drained appends and the still-pending lines. -/
def drainLoop (parse : String → LogEntry) : Nat → App → List String → App × List String
  | _, a, [] => (a, [])
  | 0, a, line :: rest => (a, line :: rest)
  | fuel + 1, a, line :: rest => drainLoop parse fuel (a.add_log (parse line)) rest

/-- The ingest-drain step of one scheduler iteration (`main.rs` lines
317-329): skipped entirely while frozen, otherwise a bounded drain. -/
def ingest_step (parse : String → LogEntry) (a : App) (queue : List String) :
    App × List String :=
  if a.frozen then (a, queue) else drainLoop parse BATCH_DRAIN a queue

/-- One entry-store mutation as scheduled by `run_tui`: a live append or a
lazy-history prepend. -/
inductive StoreOp where
  | add (entry : LogEntry)
  | prepend (batch : List LogEntry)

/-- Apply one store operation. -/
def applyOp (a : App) : StoreOp → App
  | StoreOp.add entry => a.add_log entry
  | StoreOp.prepend batch => a.prepend_logs batch

/-- Run a sequence of store operations from the initial state. -/
def runOps (ops : List StoreOp) : App :=
  ops.foldl applyOp App.new

/-- A continuation line as produced by any parser on an unclassified line:
level `Unknown`, no captured fields. -/
def mkContinuation (r : String) : LogEntry :=
  { raw := r
    level := LogLevel.Unknown
    timestamp := none
    message := none
    metadata := none
    extra_lines := [] }

/-- The last entry of a sequence whose level is not `Unknown`, if any. -/
def lastNonUnknown (es : List LogEntry) : Option LogEntry :=
  es.foldl (fun acc e => if e.level = LogLevel.Unknown then acc else some e) none

/-- Relation between the store state and the sequence of entries appended
so far: while no non-`Unknown` entry has arrived the structured flag is
still clear, and afterwards the tail entry carries the identity of the
last non-`Unknown` entry of the sequence. -/
def tailTracks (a : App) (es : List LogEntry) : Prop :=
  (lastNonUnknown es = none → a.has_structured_logs = false) ∧
  (∀ E, lastNonUnknown es = some E → a.has_structured_logs = true ∧
    ∃ t, a.logs.getLast? = some t ∧ t.level = E.level ∧ t.raw = E.raw ∧
      t.level ≠ LogLevel.Unknown)

/-- A capture oracle where every regex fails to match, used to evaluate
the development on concrete lines. -/
def noCaps : RegexCaps :=
  { laravel := fun _ => none
    django := fun _ => none
    go_slog := fun _ => none
    go_std := fun _ => none
    nginx := fun _ => none
    json_level := fun _ => none
    json_msg := fun _ => none }

/-- A concrete error-level entry. -/
def eErr : LogEntry :=
  { raw := "ERROR boot failed"
    level := LogLevel.Error
    timestamp := none
    message := none
    metadata := none
    extra_lines := [] }

/-- A concrete unclassified continuation entry. -/
def eUnk : LogEntry :=
  { raw := "  at frame 1"
    level := LogLevel.Unknown
    timestamp := none
    message := none
    metadata := none
    extra_lines := [] }

/-- A concrete info-level entry. -/
def eInfo : LogEntry :=
  { raw := "INFO ok"
    level := LogLevel.Info
    timestamp := none
    message := none
    metadata := none
    extra_lines := [] }

/-- A concrete entry with a parsed timestamp whose raw text holds extra
words not present in the timestamp. -/
def eStamped : LogEntry :=
  { raw := "ERROR boom"
    level := LogLevel.Error
    timestamp := some "10:00"
    message := none
    metadata := none
    extra_lines := [] }

lemma append_entry_fields (a : App) (e : LogEntry) :
    (a.append_entry e).logs =
        (if a.logs.length ≥ MAX_LOG_LINES then a.logs.tail else a.logs) ++ [e] ∧
      (a.append_entry e).total_count = a.total_count + 1 ∧
      (a.append_entry e).error_count = a.error_count +
        (if e.level = LogLevel.Error ∨ e.level = LogLevel.Fatal then 1 else 0) ∧
      (a.append_entry e).eps_counter = a.eps_counter + 1 ∧
      (a.append_entry e).has_structured_logs = a.has_structured_logs ∧
      (a.append_entry e).selected_index = a.selected_index ∧
      (a.append_entry e).error_only = a.error_only ∧
      (a.append_entry e).filter_regex = a.filter_regex ∧
      (a.append_entry e).frozen = a.frozen := by
  unfold App.append_entry
  by_cases he : e.level = LogLevel.Error ∨ e.level = LogLevel.Fatal <;>
    by_cases hlen : a.logs.length ≥ MAX_LOG_LINES <;>
      simp [he, hlen]

lemma add_log_grouped (a : App) (e t : LogEntry)
    (hs : a.has_structured_logs = true) (hu : e.level = LogLevel.Unknown)
    (hl : a.logs.getLast? = some t) (hnl : t.level ≠ LogLevel.Unknown) :
    a.add_log e = { a with logs := a.logs.dropLast ++
      [{ t with extra_lines := t.extra_lines ++ [e.raw] }] } := by
  unfold App.add_log
  simp [hu, hs, hl, hnl]

lemma add_log_not_grouped (a : App) (e : LogEntry)
    (h : ¬ (a.has_structured_logs = true ∧ e.level = LogLevel.Unknown ∧
        ∃ t, a.logs.getLast? = some t ∧ t.level ≠ LogLevel.Unknown)) :
    a.add_log e =
      (if e.level ≠ LogLevel.Unknown then { a with has_structured_logs := true }
        else a).append_entry e := by
  unfold App.add_log
  by_cases hu : e.level = LogLevel.Unknown
  · simp only [hu, ne_eq, not_true_eq_false, if_false, and_true]
    by_cases hs : a.has_structured_logs = true
    · simp only [hs, if_true]
      cases hl : a.logs.getLast? with
      | none => rfl
      | some t =>
        have hnl : ¬ t.level ≠ LogLevel.Unknown := by
          intro hc
          exact h ⟨hs, hu, t, hl, hc⟩
        simp [hnl]
    · simp [hs]
  · simp [hu]

lemma lastNonUnknown_append (es : List LogEntry) (e : LogEntry) :
    lastNonUnknown (es ++ [e]) =
      if e.level = LogLevel.Unknown then lastNonUnknown es else some e := by
  unfold lastNonUnknown
  rw [List.foldl_append]
  rfl

lemma tailTracks_step (a : App) (es : List LogEntry) (e : LogEntry)
    (h : tailTracks a es) : tailTracks (a.add_log e) (es ++ [e]) := by
  obtain ⟨hnone, hsome⟩ := h
  by_cases hu : e.level = LogLevel.Unknown
  · constructor
    · intro hLNU
      rw [lastNonUnknown_append, if_pos hu] at hLNU
      have hflag := hnone hLNU
      have hng : a.add_log e = a.append_entry e := by
        rw [add_log_not_grouped a e (by
          rintro ⟨hs, -, -⟩
          rw [hflag] at hs
          exact Bool.false_ne_true hs)]
        simp [hu]
      rw [hng]
      exact (append_entry_fields a e).2.2.2.2.1.trans hflag
    · intro E hLNU
      rw [lastNonUnknown_append, if_pos hu] at hLNU
      obtain ⟨hs, t, hl, hlv, hraw, hnl⟩ := hsome E hLNU
      rw [add_log_grouped a e t hs hu hl hnl]
      refine ⟨hs, { t with extra_lines := t.extra_lines ++ [e.raw] }, ?_, hlv, hraw, hnl⟩
      simp [List.getLast?_concat]
  · have hng : a.add_log e = ({ a with has_structured_logs := true }).append_entry e := by
      rw [add_log_not_grouped a e (by rintro ⟨-, hc, -⟩; exact hu hc)]
      simp [hu]
    constructor
    · intro hLNU
      rw [lastNonUnknown_append, if_neg hu] at hLNU
      exact absurd hLNU (by simp)
    · intro E hLNU
      rw [lastNonUnknown_append, if_neg hu] at hLNU
      obtain rfl : e = E := by simpa using hLNU
      rw [hng]
      obtain ⟨hlogs, -, -, -, hflag, -⟩ :=
        append_entry_fields { a with has_structured_logs := true } e
      refine ⟨hflag, e, ?_, rfl, rfl, hu⟩
      rw [hlogs]
      exact List.getLast?_concat _

lemma tailTracks_fold (es : List LogEntry) :
    ∀ (pre : List LogEntry) (a : App), tailTracks a pre →
      tailTracks (es.foldl App.add_log a) (pre ++ es) := by
  induction es with
  | nil => intro pre a h; simpa using h
  | cons e rest ih =>
    intro pre a h
    have h1 := tailTracks_step a pre e h
    have h2 := ih (pre ++ [e]) (a.add_log e) h1
    simpa using h2

lemma tailTracks_run (es : List LogEntry) :
    tailTracks (es.foldl App.add_log App.new) es := by
  have h0 : tailTracks App.new [] := by
    constructor
    · intro _
      rfl
    · intro E hE
      simp [lastNonUnknown] at hE
  simpa using tailTracks_fold es [] App.new h0

lemma getLast?_ne_nil {l : List LogEntry} {t : LogEntry}
    (h : l.getLast? = some t) : l ≠ [] := by
  intro hn
  rw [hn] at h
  simp at h

/-- C1: when the structured flag is set, an `Unknown`-level line arriving
while the tail entry has a known level is attached to the tail entry's
`extra_lines` instead of being appended: the ring keeps its length and
the counters do not move.  Consequently, over any append sequence ending
in an `Unknown` line, the last non-`Unknown` entry of the sequence is
still the tail entry afterwards and carries that final line as its last
extra line. -/
theorem C1_multiline_grouping :
    (∀ (a : App) (e t : LogEntry),
      a.has_structured_logs = true → e.level = LogLevel.Unknown →
      a.logs.getLast? = some t → t.level ≠ LogLevel.Unknown →
      (a.add_log e).logs =
          a.logs.dropLast ++ [{ t with extra_lines := t.extra_lines ++ [e.raw] }] ∧
        (a.add_log e).total_count = a.total_count ∧
        (a.add_log e).error_count = a.error_count ∧
        (a.add_log e).logs.length = a.logs.length) ∧
    (∀ (es : List LogEntry) (u E : LogEntry),
      u.level = LogLevel.Unknown → lastNonUnknown es = some E →
      ∃ t, ((es ++ [u]).foldl App.add_log App.new).logs.getLast? = some t ∧
        t.level = E.level ∧ t.raw = E.raw ∧
        t.extra_lines.getLast? = some u.raw) := by
  constructor
  · intro a e t hs hu hl hnl
    have hg := add_log_grouped a e t hs hu hl hnl
    have hne := getLast?_ne_nil hl
    have hpos : 0 < a.logs.length := List.length_pos.mpr hne
    rw [hg]
    refine ⟨rfl, rfl, rfl, ?_⟩
    simp [List.length_dropLast]
    omega
  · intro es u E hu hE
    obtain ⟨hs, t, hl, hlv, hraw, hnl⟩ := (tailTracks_run es).2 E hE
    rw [List.foldl_append]
    set a := es.foldl App.add_log App.new with ha
    rw [List.foldl_cons, List.foldl_nil]
    rw [add_log_grouped a u t hs hu hl hnl]
    refine ⟨{ t with extra_lines := t.extra_lines ++ [u.raw] }, ?_, hlv, hraw, ?_⟩
    · simp [List.getLast?_concat]
    · simp [List.getLast?_concat]

/-- Witness for C1 at concrete inputs: one error entry followed by one
continuation line. -/
theorem C1_witness :
    ((App.new.add_log eErr).add_log eUnk).logs.length =
        (App.new.add_log eErr).logs.length ∧
      (∃ t, (([eErr] ++ [eUnk]).foldl App.add_log App.new).logs.getLast? = some t ∧
        t.level = eErr.level ∧ t.raw = eErr.raw ∧
        t.extra_lines.getLast? = some eUnk.raw) := by
  constructor
  · exact (C1_multiline_grouping.1 (App.new.add_log eErr) eUnk eErr
      (by decide) (by decide) (by decide) (by decide)).2.2.2
  · exact C1_multiline_grouping.2 [eErr] eUnk eErr (by decide) (by decide)

lemma grouped_fold (raws : List String) :
    ∀ (a : App) (t : LogEntry),
      a.has_structured_logs = true → a.logs.getLast? = some t →
      t.level ≠ LogLevel.Unknown →
      (raws.foldl (fun s r => s.add_log (mkContinuation r)) a).logs.length =
          a.logs.length ∧
        (raws.foldl (fun s r => s.add_log (mkContinuation r)) a).logs.getLast? =
          some { t with extra_lines := t.extra_lines ++ raws } := by
  induction raws with
  | nil =>
    intro a t hs hl hnl
    simpa using hl
  | cons r rs ih =>
    intro a t hs hl hnl
    have hg := add_log_grouped a (mkContinuation r) t hs rfl hl hnl
    have hne := getLast?_ne_nil hl
    have hpos : 0 < a.logs.length := List.length_pos.mpr hne
    set t1 : LogEntry := { t with extra_lines := t.extra_lines ++ [r] } with ht1
    have hl1 : (a.add_log (mkContinuation r)).logs.getLast? = some t1 := by
      rw [hg]
      simp [mkContinuation, List.getLast?_concat, ht1]
    have hs1 : (a.add_log (mkContinuation r)).has_structured_logs = true := by
      rw [hg]
      exact hs
    have hlen1 : (a.add_log (mkContinuation r)).logs.length = a.logs.length := by
      rw [hg]
      simp [List.length_dropLast]
      omega
    have hnl1 : t1.level ≠ LogLevel.Unknown := hnl
    obtain ⟨hL, hG⟩ := ih (a.add_log (mkContinuation r)) t1 hs1 hl1 hnl1
    refine ⟨by simpa [hlen1] using hL, ?_⟩
    simpa [ht1, List.append_assoc] using hG

/-- C10: when the continuation-grouping branch of add_log fires, the only
change is one string pushed onto the tail entry's extra_lines; the ring
length, the preceding entries, the counters, the EPS counter, the
selection, the scroll offsets and the structured flag are untouched and
no eviction happens, so repeated continuation lines grow the tail's
extra_lines without bound while the ring length stays constant. -/
theorem C10_grouping_frame :
    ∀ (a : App) (e t : LogEntry),
      a.has_structured_logs = true → e.level = LogLevel.Unknown →
      a.logs.getLast? = some t → t.level ≠ LogLevel.Unknown →
      (a.add_log e = { a with logs := a.logs.dropLast ++
          [{ t with extra_lines := t.extra_lines ++ [e.raw] }] } ∧
        (a.add_log e).logs.length = a.logs.length ∧
        (a.add_log e).logs.dropLast = a.logs.dropLast ∧
        (a.add_log e).logs.getLast? =
          some { t with extra_lines := t.extra_lines ++ [e.raw] } ∧
        (a.add_log e).total_count = a.total_count ∧
        (a.add_log e).error_count = a.error_count ∧
        (a.add_log e).eps_counter = a.eps_counter ∧
        (a.add_log e).selected_index = a.selected_index ∧
        (a.add_log e).scroll_offset = a.scroll_offset ∧
        (a.add_log e).horizontal_scroll = a.horizontal_scroll ∧
        (a.add_log e).has_structured_logs = a.has_structured_logs) ∧
      (∀ raws : List String,
        (raws.foldl (fun s r => s.add_log (mkContinuation r)) a).logs.length =
            a.logs.length ∧
          (raws.foldl (fun s r => s.add_log (mkContinuation r)) a).logs.getLast? =
            some { t with extra_lines := t.extra_lines ++ raws }) := by
  intro a e t hs hu hl hnl
  have hg := add_log_grouped a e t hs hu hl hnl
  have hne := getLast?_ne_nil hl
  have hpos : 0 < a.logs.length := List.length_pos.mpr hne
  constructor
  · refine ⟨hg, ?_, ?_, ?_, ?_, ?_, ?_, ?_, ?_, ?_, ?_⟩ <;> rw [hg]
    · simp [List.length_dropLast]
      omega
    · simp
    · simp [List.getLast?_concat]
  · intro raws
    exact grouped_fold raws a t hs hl hnl

/-- Witness for C10 at concrete inputs: an error entry followed by a
continuation, then a two-line continuation burst. -/
theorem C10_witness :
    ((App.new.add_log eErr).add_log eUnk).total_count =
        (App.new.add_log eErr).total_count ∧
      (["frame a", "frame b"].foldl
          (fun s r => s.add_log (mkContinuation r)) (App.new.add_log eErr)).logs.length =
        (App.new.add_log eErr).logs.length := by
  have h := C10_grouping_frame (App.new.add_log eErr) eUnk eErr
    (by decide) (by decide) (by decide) (by decide)
  exact ⟨h.1.2.2.2.2.1, (h.2 ["frame a", "frame b"]).1⟩

lemma add_log_cases (a : App) (e : LogEntry) :
    (∃ t, a.has_structured_logs = true ∧ e.level = LogLevel.Unknown ∧
        a.logs.getLast? = some t ∧ t.level ≠ LogLevel.Unknown ∧
        a.add_log e = { a with logs := a.logs.dropLast ++
          [{ t with extra_lines := t.extra_lines ++ [e.raw] }] }) ∨
      a.add_log e = (if e.level ≠ LogLevel.Unknown then
        { a with has_structured_logs := true } else a).append_entry e := by
  by_cases hgr : a.has_structured_logs = true ∧ e.level = LogLevel.Unknown ∧
      ∃ t, a.logs.getLast? = some t ∧ t.level ≠ LogLevel.Unknown
  · obtain ⟨hs, hu, t, hl, hnl⟩ := hgr
    exact Or.inl ⟨t, hs, hu, hl, hnl, add_log_grouped a e t hs hu hl hnl⟩
  · exact Or.inr (add_log_not_grouped a e hgr)

lemma structupd_counters (a : App) (e : LogEntry) :
    (if e.level ≠ LogLevel.Unknown then { a with has_structured_logs := true }
        else a).logs = a.logs ∧
      (if e.level ≠ LogLevel.Unknown then { a with has_structured_logs := true }
        else a).total_count = a.total_count ∧
      (if e.level ≠ LogLevel.Unknown then { a with has_structured_logs := true }
        else a).error_count = a.error_count := by
  split <;> exact ⟨rfl, rfl, rfl⟩

lemma add_log_len_le (a : App) (e : LogEntry) (h : a.logs.length ≤ MAX_LOG_LINES) :
    (a.add_log e).logs.length ≤ MAX_LOG_LINES := by
  rcases add_log_cases a e with ⟨t, hs, hu, hl, hnl, heq⟩ | heq
  · have hpos : 0 < a.logs.length := List.length_pos.mpr (getLast?_ne_nil hl)
    rw [heq]
    simp [List.length_dropLast]
    omega
  · rw [heq]
    rw [(append_entry_fields _ e).1, (structupd_counters a e).1]
    by_cases hfull : a.logs.length ≥ MAX_LOG_LINES
    · rw [if_pos hfull]
      simp only [List.length_append, List.length_tail, List.length_cons,
        List.length_nil, MAX_LOG_LINES] at *
      omega
    · rw [if_neg hfull]
      simp only [List.length_append, List.length_cons, List.length_nil,
        MAX_LOG_LINES] at *
      omega

lemma add_log_total_mono (a : App) (e : LogEntry) :
    a.total_count ≤ (a.add_log e).total_count := by
  rcases add_log_cases a e with ⟨t, hs, hu, hl, hnl, heq⟩ | heq <;> rw [heq]
  rw [(append_entry_fields _ e).2.1, (structupd_counters a e).2.1]
  omega

lemma add_log_error_mono (a : App) (e : LogEntry) :
    a.error_count ≤ (a.add_log e).error_count := by
  rcases add_log_cases a e with ⟨t, hs, hu, hl, hnl, heq⟩ | heq <;> rw [heq]
  rw [(append_entry_fields _ e).2.2.1, (structupd_counters a e).2.2]
  omega

lemma add_log_error_eq (a : App) (e : LogEntry) :
    (a.add_log e).error_count = a.error_count +
      (if e.level = LogLevel.Error ∨ e.level = LogLevel.Fatal then 1 else 0) := by
  rcases add_log_cases a e with ⟨t, hs, hu, hl, hnl, heq⟩ | heq <;> rw [heq]
  · simp [hu]
  · rw [(append_entry_fields _ e).2.2.1, (structupd_counters a e).2.2]

lemma add_log_err_le_total (a : App) (e : LogEntry)
    (h : a.error_count ≤ a.total_count) :
    (a.add_log e).error_count ≤ (a.add_log e).total_count := by
  rcases add_log_cases a e with ⟨t, hs, hu, hl, hnl, heq⟩ | heq <;> rw [heq]
  · exact h
  · rw [(append_entry_fields _ e).2.1, (structupd_counters a e).2.1,
      (append_entry_fields _ e).2.2.1, (structupd_counters a e).2.2]
    split <;> omega

lemma prepend_fold_take (batch : List LogEntry) :
    ∀ logs : List LogEntry, logs.length ≤ MAX_LOG_LINES →
      batch.reverse.foldl prependStep logs = (batch ++ logs).take MAX_LOG_LINES := by
  induction batch with
  | nil =>
    intro logs h
    simp [List.take_of_length_le h]
  | cons b bs ih =>
    intro logs h
    rw [List.reverse_cons, List.foldl_append, ih logs h, List.foldl_cons,
      List.foldl_nil]
    simp only [prependStep]
    by_cases hcase : MAX_LOG_LINES ≤ (bs ++ logs).length
    · have hXlen : ((bs ++ logs).take MAX_LOG_LINES).length = MAX_LOG_LINES := by
        rw [List.length_take]
        omega
      have hcond : MAX_LOG_LINES < (b :: (bs ++ logs).take MAX_LOG_LINES).length := by
        rw [List.length_cons, hXlen]
        omega
      rw [if_pos hcond, List.dropLast_eq_take]
      have h1 : (b :: (bs ++ logs).take MAX_LOG_LINES).length - 1 = MAX_LOG_LINES := by
        rw [List.length_cons, hXlen]
        omega
      rw [h1, List.cons_append]
      have hM : MAX_LOG_LINES = 9999 + 1 := by norm_num [MAX_LOG_LINES]
      rw [hM, List.take_succ_cons, List.take_succ_cons, List.take_take]
      norm_num
    · push_neg at hcase
      rw [List.take_of_length_le (le_of_lt hcase)]
      have hcond : ¬ MAX_LOG_LINES < (b :: (bs ++ logs)).length := by
        rw [List.length_cons]
        omega
      rw [if_neg hcond, List.cons_append, List.take_of_length_le]
      rw [List.length_cons]
      omega

lemma prepend_logs_take (a : App) (batch : List LogEntry)
    (h : a.logs.length ≤ MAX_LOG_LINES) (hne : batch ≠ []) :
    (a.prepend_logs batch).logs = (batch ++ a.logs).take MAX_LOG_LINES ∧
      (a.prepend_logs batch).selected_index = batch.length := by
  simp only [App.prepend_logs]
  rw [if_neg (by simpa using hne)]
  exact ⟨prepend_fold_take batch a.logs h, rfl⟩

lemma prepend_logs_counters (a : App) (batch : List LogEntry) :
    (a.prepend_logs batch).total_count = a.total_count ∧
      (a.prepend_logs batch).error_count = a.error_count := by
  simp only [App.prepend_logs]
  split <;> exact ⟨rfl, rfl⟩

lemma prepend_logs_len_le (a : App) (batch : List LogEntry)
    (h : a.logs.length ≤ MAX_LOG_LINES) :
    (a.prepend_logs batch).logs.length ≤ MAX_LOG_LINES := by
  by_cases hne : batch = []
  · subst hne
    simpa [App.prepend_logs] using h
  · rw [(prepend_logs_take a batch h hne).1]
    rw [List.length_take]
    omega

lemma invC2_applyOp (a : App) (op : StoreOp)
    (h : a.logs.length ≤ MAX_LOG_LINES ∧ a.error_count ≤ a.total_count) :
    (applyOp a op).logs.length ≤ MAX_LOG_LINES ∧
      (applyOp a op).error_count ≤ (applyOp a op).total_count := by
  cases op with
  | add e => exact ⟨add_log_len_le a e h.1, add_log_err_le_total a e h.2⟩
  | prepend batch =>
    refine ⟨prepend_logs_len_le a batch h.1, ?_⟩
    show (a.prepend_logs batch).error_count ≤ (a.prepend_logs batch).total_count
    rw [(prepend_logs_counters a batch).1, (prepend_logs_counters a batch).2]
    exact h.2

lemma invC2_fold (ops : List StoreOp) :
    ∀ a : App, a.logs.length ≤ MAX_LOG_LINES ∧ a.error_count ≤ a.total_count →
      (ops.foldl applyOp a).logs.length ≤ MAX_LOG_LINES ∧
        (ops.foldl applyOp a).error_count ≤ (ops.foldl applyOp a).total_count := by
  induction ops with
  | nil => intro a h; simpa using h
  | cons op rest ih =>
    intro a h
    exact ih (applyOp a op) (invC2_applyOp a op h)

/-- C2: over any sequence of appends and history prepends from the
initial state the ring never exceeds MAX_LOG_LINES entries and
error_count stays below total_count; both counters are monotone
step-by-step, and an append bumps error_count exactly when the entry is
Error or Fatal level. -/
theorem C2_bounds_and_counters :
    (∀ ops : List StoreOp,
      (runOps ops).logs.length ≤ MAX_LOG_LINES ∧
        (runOps ops).error_count ≤ (runOps ops).total_count) ∧
    (∀ (a : App) (op : StoreOp),
      a.total_count ≤ (applyOp a op).total_count ∧
        a.error_count ≤ (applyOp a op).error_count) ∧
    (∀ (a : App) (e : LogEntry),
      (a.add_log e).error_count = a.error_count +
        (if e.level = LogLevel.Error ∨ e.level = LogLevel.Fatal then 1 else 0)) := by
  refine ⟨?_, ?_, add_log_error_eq⟩
  · intro ops
    exact invC2_fold ops App.new (by constructor <;> simp [App.new, MAX_LOG_LINES])
  · intro a op
    cases op with
    | add e => exact ⟨add_log_total_mono a e, add_log_error_mono a e⟩
    | prepend batch =>
      show a.total_count ≤ (a.prepend_logs batch).total_count ∧
        a.error_count ≤ (a.prepend_logs batch).error_count
      rw [(prepend_logs_counters a batch).1, (prepend_logs_counters a batch).2]
      exact ⟨Nat.le_refl _, Nat.le_refl _⟩

lemma clamp_selection_inv (a : App) :
    (a.clamp_selection).selected_index < max 1 (a.clamp_selection).visible_count := by
  simp only [App.clamp_selection]
  by_cases h0 : a.visible_count = 0
  · simp only [if_pos h0]
    show (0 : Nat) < max 1 a.visible_count
    omega
  · simp only [if_neg h0]
    by_cases h1 : a.selected_index ≥ a.visible_count
    · simp only [if_pos h1]
      show a.visible_count - 1 < max 1 a.visible_count
      omega
    · simp only [if_neg h1]
      show a.selected_index < max 1 a.visible_count
      omega

lemma scroll_down_inv (a : App) (h : a.selected_index < max 1 a.visible_count) :
    (a.scroll_down).selected_index < max 1 (a.scroll_down).visible_count := by
  simp only [App.scroll_down]
  split
  · rename_i hc
    obtain ⟨h1, h2⟩ := hc
    show a.selected_index + 1 < max 1 a.visible_count
    omega
  · exact h

lemma scroll_up_inv (a : App) (h : a.selected_index < max 1 a.visible_count) :
    (a.scroll_up).selected_index < max 1 (a.scroll_up).visible_count := by
  simp only [App.scroll_up]
  split
  · show a.selected_index - 1 < max 1 a.visible_count
    omega
  · split
    · show a.selected_index < max 1 a.visible_count
      exact h
    · exact h

lemma page_down_inv (a : App) (ps : Nat)
    (h : a.selected_index < max 1 a.visible_count) :
    (a.page_down ps).selected_index < max 1 (a.page_down ps).visible_count := by
  simp only [App.page_down]
  split
  · rename_i hc
    show min (a.selected_index + ps) (a.visible_count - 1) < max 1 a.visible_count
    omega
  · exact h

lemma page_up_inv (a : App) (ps : Nat)
    (h : a.selected_index < max 1 a.visible_count) :
    (a.page_up ps).selected_index < max 1 (a.page_up ps).visible_count := by
  simp only [App.page_up]
  split
  · show a.selected_index - ps < max 1 a.visible_count
    omega
  · show a.selected_index - ps < max 1 a.visible_count
    omega

lemma jump_to_start_inv (a : App) :
    (a.jump_to_start).selected_index < max 1 (a.jump_to_start).visible_count := by
  simp only [App.jump_to_start]
  split
  · show (0 : Nat) < max 1 a.visible_count
    omega
  · show (0 : Nat) < max 1 a.visible_count
    omega

lemma jump_to_end_inv (a : App) (h : a.selected_index < max 1 a.visible_count) :
    (a.jump_to_end).selected_index < max 1 (a.jump_to_end).visible_count := by
  simp only [App.jump_to_end]
  split
  · rename_i hc
    show a.visible_count - 1 < max 1 a.visible_count
    omega
  · exact h

lemma clear_logs_inv (a : App) :
    (a.clear_logs).selected_index < max 1 (a.clear_logs).visible_count ∧
      (a.clear_logs).visible_count = 0 := by
  constructor
  · show (0 : Nat) < max 1 (0 : Nat)
    decide
  · rfl

lemma search_next_inv (a : App) (h : a.selected_index < max 1 a.visible_count) :
    (a.search_next).selected_index < max 1 (a.search_next).visible_count := by
  simp only [App.search_next]
  split
  · exact h
  · split
    · exact h
    · rename_i hlen
      split
      · rename_i i hfind
        have hpos : 0 < a.visible_logs.length := Nat.pos_of_ne_zero hlen
        have hlt : (a.selected_index + 1 + i) % a.visible_logs.length <
            a.visible_logs.length := Nat.mod_lt _ hpos
        have hcount : a.visible_logs.length = a.visible_count := rfl
        show (a.selected_index + 1 + i) % a.visible_logs.length <
          max 1 a.visible_count
        omega
      · exact h

lemma search_prev_inv (a : App) (h : a.selected_index < max 1 a.visible_count) :
    (a.search_prev).selected_index < max 1 (a.search_prev).visible_count := by
  simp only [App.search_prev]
  split
  · exact h
  · split
    · exact h
    · rename_i hlen
      split
      · rename_i i hfind
        have hpos : 0 < a.visible_logs.length := Nat.pos_of_ne_zero hlen
        have hlt : ((if a.selected_index = 0 then a.visible_logs.length - 1
              else a.selected_index - 1) + a.visible_logs.length - i) %
              a.visible_logs.length < a.visible_logs.length := Nat.mod_lt _ hpos
        have hcount : a.visible_logs.length = a.visible_count := rfl
        show ((if a.selected_index = 0 then a.visible_logs.length - 1
            else a.selected_index - 1) + a.visible_logs.length - i) %
            a.visible_logs.length < max 1 a.visible_count
        omega
      · exact h

lemma jumpFind_lt (q : String) (l : List LogEntry) :
    ∀ (k i : Nat), jumpFind q l k = some i → i < k + l.length := by
  induction l with
  | nil =>
    intro k i h
    simp [jumpFind] at h
  | cons e rest ih =>
    intro k i h
    rw [List.length_cons]
    unfold jumpFind at h
    rcases hts : e.timestamp with _ | ts <;> simp only [hts] at h
    · split at h
      · obtain rfl := Option.some.inj h
        omega
      · have := ih (k + 1) i h
        omega
    · split at h
      · obtain rfl := Option.some.inj h
        omega
      · split at h
        · obtain rfl := Option.some.inj h
          omega
        · have := ih (k + 1) i h
          omega

lemma jump_to_time_inv (a : App) (q : String)
    (h : a.selected_index < max 1 a.visible_count) :
    (a.jump_to_time q).selected_index < max 1 (a.jump_to_time q).visible_count := by
  unfold App.jump_to_time
  cases hj : jumpFind q a.visible_logs 0 with
  | none =>
    simp only [hj]
    exact h
  | some idx =>
    simp only [hj]
    have hlt := jumpFind_lt q a.visible_logs 0 idx hj
    have hcount : a.visible_logs.length = a.visible_count := rfl
    show idx < max 1 a.visible_count
    omega

/-- C3 (amended): every cursor motion preserves the selection bound
selected_index < max 1 visible_count, and the clamped toggles, the
clamped filter commit, clear, search and time jump (re)establish or
preserve it; when the visible set is empty a selection satisfying the
bound is 0.  The prepend of a history batch is excluded: it sets the
selection to the batch size without clamping, which can exceed the bound
when the prepended entries are filtered out (see the counterexample). -/
theorem C3_selection_invariant :
    (∀ a : App, a.selected_index < max 1 a.visible_count →
      (a.scroll_down).selected_index < max 1 (a.scroll_down).visible_count) ∧
    (∀ a : App, a.selected_index < max 1 a.visible_count →
      (a.scroll_up).selected_index < max 1 (a.scroll_up).visible_count) ∧
    (∀ (a : App) (ps : Nat), a.selected_index < max 1 a.visible_count →
      (a.page_down ps).selected_index < max 1 (a.page_down ps).visible_count) ∧
    (∀ (a : App) (ps : Nat), a.selected_index < max 1 a.visible_count →
      (a.page_up ps).selected_index < max 1 (a.page_up ps).visible_count) ∧
    (∀ a : App,
      (a.jump_to_start).selected_index < max 1 (a.jump_to_start).visible_count) ∧
    (∀ a : App, a.selected_index < max 1 a.visible_count →
      (a.jump_to_end).selected_index < max 1 (a.jump_to_end).visible_count) ∧
    (∀ a : App, (a.toggle_error_only).selected_index <
      max 1 (a.toggle_error_only).visible_count) ∧
    (∀ (a : App) (m : Option (String → Bool)),
      (a.commit_filter m).selected_index < max 1 (a.commit_filter m).visible_count) ∧
    (∀ a : App, (a.clear_logs).selected_index <
        max 1 (a.clear_logs).visible_count ∧ (a.clear_logs).visible_count = 0) ∧
    (∀ a : App, a.selected_index < max 1 a.visible_count →
      (a.search_next).selected_index < max 1 (a.search_next).visible_count) ∧
    (∀ a : App, a.selected_index < max 1 a.visible_count →
      (a.search_prev).selected_index < max 1 (a.search_prev).visible_count) ∧
    (∀ (a : App) (q : String), a.selected_index < max 1 a.visible_count →
      (a.jump_to_time q).selected_index < max 1 (a.jump_to_time q).visible_count) ∧
    (∀ a : App, a.selected_index < max 1 a.visible_count →
      a.visible_count = 0 → a.selected_index = 0) := by
  refine ⟨scroll_down_inv, scroll_up_inv, page_down_inv, page_up_inv,
    jump_to_start_inv, jump_to_end_inv,
    fun a => clamp_selection_inv _, fun a m => clamp_selection_inv _,
    clear_logs_inv, search_next_inv, search_prev_inv, jump_to_time_inv, ?_⟩
  intro a h h0
  rw [h0] at h
  omega

/-- Counterexample to C3 as stated: prepending a single info-level batch
into an error-only view leaves the selection at 1 while the visible set
is empty, violating the selection bound after a prepend. -/
theorem C3_counterexample :
    ¬ ((App.new.toggle_error_only.prepend_logs [eInfo]).selected_index <
      max 1 (App.new.toggle_error_only.prepend_logs [eInfo]).visible_count) := by
  decide

/-- Witness for C3 at the initial state, discharging each conditional
conjunct there. -/
theorem C3_witness :
    (App.new.scroll_down).selected_index <
        max 1 (App.new.scroll_down).visible_count ∧
      (App.new.scroll_up).selected_index <
        max 1 (App.new.scroll_up).visible_count ∧
      (App.new.page_down 50).selected_index <
        max 1 (App.new.page_down 50).visible_count ∧
      (App.new.page_up 50).selected_index <
        max 1 (App.new.page_up 50).visible_count ∧
      (App.new.jump_to_end).selected_index <
        max 1 (App.new.jump_to_end).visible_count ∧
      (App.new.search_next).selected_index <
        max 1 (App.new.search_next).visible_count ∧
      (App.new.search_prev).selected_index <
        max 1 (App.new.search_prev).visible_count ∧
      (App.new.jump_to_time "10:00").selected_index <
        max 1 (App.new.jump_to_time "10:00").visible_count ∧
      App.new.selected_index = 0 := by
  refine ⟨C3_selection_invariant.1 App.new (by decide),
    C3_selection_invariant.2.1 App.new (by decide),
    C3_selection_invariant.2.2.1 App.new 50 (by decide),
    C3_selection_invariant.2.2.2.1 App.new 50 (by decide),
    C3_selection_invariant.2.2.2.2.2.1 App.new (by decide),
    C3_selection_invariant.2.2.2.2.2.2.2.2.2.1 App.new (by decide),
    C3_selection_invariant.2.2.2.2.2.2.2.2.2.2.1 App.new (by decide),
    C3_selection_invariant.2.2.2.2.2.2.2.2.2.2.2.1 App.new "10:00" (by decide),
    C3_selection_invariant.2.2.2.2.2.2.2.2.2.2.2.2 App.new (by decide) (by decide)⟩

/-- Counterexample to C4 as stated: from a state with the cursor at 1,
prepending a one-entry batch leaves the cursor at 1 = batch size, not at
the prior position plus the batch size. -/
theorem C4_counterexample :
    ((((App.new.add_log eErr).add_log eInfo).scroll_down).prepend_logs
        [eInfo]).selected_index = 1 ∧
      (((App.new.add_log eErr).add_log eInfo).scroll_down).selected_index = 1 ∧
      (1 : Nat) ≠ 1 + 1 := by
  decide

/-- C4 (amended): a non-empty prepended batch sets selected_index to the
batch size outright (equal to the old position plus the batch size only
when the cursor was at 0, which is where history loads trigger), and the
ring becomes the batch followed by the old entries, truncated at the tail
to MAX_LOG_LINES. -/
theorem C4_prepend_batch :
    ∀ (a : App) (batch : List LogEntry), batch ≠ [] →
      a.logs.length ≤ MAX_LOG_LINES →
      (a.prepend_logs batch).selected_index = batch.length ∧
        (a.prepend_logs batch).logs = (batch ++ a.logs).take MAX_LOG_LINES := by
  intro a batch hne h
  obtain ⟨h1, h2⟩ := prepend_logs_take a batch h hne
  exact ⟨h2, h1⟩

/-- Witness for C4 at a concrete one-entry batch. -/
theorem C4_witness :
    (App.new.prepend_logs [eErr]).selected_index = 1 ∧
      (App.new.prepend_logs [eErr]).logs =
        ([eErr] ++ App.new.logs).take MAX_LOG_LINES := by
  have h := C4_prepend_batch App.new [eErr] (by decide) (by decide)
  exact ⟨by simpa using h.1, h.2⟩

lemma drainLoop_take (parse : String → LogEntry) (q : List String) :
    ∀ (n : Nat) (a : App),
      drainLoop parse n a q =
        ((q.take n).foldl (fun s l => s.add_log (parse l)) a, q.drop n) := by
  induction q with
  | nil => intro n a; cases n <;> simp [drainLoop]
  | cons l rest ih =>
    intro n a
    cases n with
    | zero => simp [drainLoop]
    | succ m =>
      simp only [drainLoop, List.take_succ_cons, List.foldl_cons,
        List.drop_succ_cons]
      exact ih m (a.add_log (parse l))

/-- C5: when frozen, the ingest-drain step of a scheduler iteration
leaves both the application state and the pending channel untouched (no
line is removed, parsed or appended); when not frozen, one iteration
drains exactly the first min(5000, pending) lines in channel order,
appending each parsed line, and leaves the rest pending — so freezing
never drops lines. -/
theorem C5_frozen_semantics :
    (∀ (parse : String → LogEntry) (a : App) (q : List String),
      a.frozen = true → ingest_step parse a q = (a, q)) ∧
    (∀ (parse : String → LogEntry) (a : App) (q : List String),
      a.frozen = false →
      ingest_step parse a q =
        ((q.take BATCH_DRAIN).foldl (fun s l => s.add_log (parse l)) a,
          q.drop BATCH_DRAIN)) := by
  constructor
  · intro parse a q h
    simp [ingest_step, h]
  · intro parse a q h
    simp only [ingest_step, h, Bool.false_eq_true, if_false]
    exact drainLoop_take parse q BATCH_DRAIN a

/-- Witness for C5: a frozen state keeps two pending lines in place and
the unfrozen initial state drains them. -/
theorem C5_witness :
    ingest_step fallback_parse { App.new with frozen := true } ["a", "b"] =
        ({ App.new with frozen := true }, ["a", "b"]) ∧
      ingest_step fallback_parse App.new ["a", "b"] =
        ((["a", "b"].take BATCH_DRAIN).foldl
            (fun s l => s.add_log (fallback_parse l)) App.new,
          ["a", "b"].drop BATCH_DRAIN) := by
  exact ⟨C5_frozen_semantics.1 fallback_parse _ _ rfl,
    C5_frozen_semantics.2 fallback_parse _ _ rfl⟩

lemma detectFold_all_le (samples : List String) :
    ∀ (ps : List ParserImpl) (acc : Option ParserImpl × Nat),
      (∀ p ∈ ps, score samples p ≤ acc.2) →
      ps.foldl (detectStep samples) acc = acc := by
  intro ps
  induction ps with
  | nil => intro acc _; rfl
  | cons p rest ih =>
    intro acc h
    rw [List.foldl_cons]
    have hp : score samples p ≤ acc.2 := h p (by simp)
    have hstep : detectStep samples acc p = acc := by
      simp only [detectStep]
      rw [if_neg (by omega)]
    rw [hstep]
    exact ih acc (fun r hr => h r (by simp [hr]))

lemma detectFold_argfirst (samples : List String) :
    ∀ (ps : List ParserImpl) (i : Nat) (p : ParserImpl),
      ps.get? i = some p →
      (∀ s ∈ (ps.map (score samples)).take i, s < score samples p) →
      (∀ s ∈ ps.map (score samples), s ≤ score samples p) →
      ∀ (b0 : Option ParserImpl) (s0 : Nat), s0 < score samples p →
        ps.foldl (detectStep samples) (b0, s0) = (some p, score samples p) := by
  intro ps
  induction ps with
  | nil =>
    intro i p h
    simp at h
  | cons q rest ih =>
    intro i p hget hlt hle b0 s0 hs0
    cases i with
    | zero =>
      have hpq : q = p := by simpa using hget
      subst hpq
      rw [List.foldl_cons]
      have hstep : detectStep samples (b0, s0) q = (some q, score samples q) := by
        simp only [detectStep]
        rw [if_pos hs0]
      rw [hstep]
      apply detectFold_all_le
      intro r hr
      exact hle (score samples r)
        (List.mem_map_of_mem _ (List.mem_cons_of_mem q hr))
    | succ j =>
      have hget' : rest.get? j = some p := by simpa using hget
      have hqlt : score samples q < score samples p := by
        apply hlt
        simp [List.take_succ_cons]
      have hlt' : ∀ s ∈ (rest.map (score samples)).take j, s < score samples p := by
        intro s hs
        apply hlt
        simp [List.take_succ_cons, hs]
      have hle' : ∀ s ∈ rest.map (score samples), s ≤ score samples p := by
        intro s hs
        exact hle s (by simp [hs])
      rw [List.foldl_cons]
      by_cases hq : score samples q > s0
      · rw [show detectStep samples (b0, s0) q = (some q, score samples q) from by
          simp only [detectStep]
          rw [if_pos hq]]
        exact ih j p hget' hlt' hle' (some q) (score samples q) hqlt
      · rw [show detectStep samples (b0, s0) q = (b0, s0) from by
          simp only [detectStep]
          rw [if_neg hq]]
        exact ih j p hget' hlt' hle' b0 s0 hs0

/-- C6: auto-detection scores each of the five probe parsers by the
number of samples its can_parse accepts; when every score is zero the
Plain fallback is returned, and otherwise the parser at the first index
attaining the (positive) maximum score is returned — so a strictly
highest scorer wins and ties above zero go to the earlier parser in the
probe order JSON, Laravel, Django, Go, Nginx/Apache. -/
theorem C6_autodetect :
    ∀ (caps : RegexCaps) (samples : List String),
      ((∀ s ∈ (probeParsers caps).map (score samples), s = 0) →
        detectBest caps samples = PlainParser) ∧
      (∀ (i : Nat) (p : ParserImpl), (probeParsers caps).get? i = some p →
        0 < score samples p →
        (∀ s ∈ ((probeParsers caps).map (score samples)).take i,
          s < score samples p) →
        (∀ s ∈ (probeParsers caps).map (score samples), s ≤ score samples p) →
        detectBest caps samples = p) := by
  intro caps samples
  constructor
  · intro hz
    unfold detectBest
    rw [detectFold_all_le samples _ ((none : Option ParserImpl), 0) ?_]
    · rfl
    · intro p hp
      have := hz (score samples p) (List.mem_map_of_mem _ hp)
      omega
  · intro i p hget hpos hlt hle
    unfold detectBest
    rw [detectFold_argfirst samples _ i p hget hlt hle none 0 hpos]
    simp only []
    rw [if_pos hpos]
    rfl

/-- Witness for C6: a brace-delimited sample makes the JSON parser the
unique positive scorer, and plain text leaves every probe score at zero. -/
theorem C6_witness :
    detectBest noCaps ["\x7b\x7d"] = JsonParser noCaps ∧
      detectBest noCaps ["plain text"] = PlainParser := by
  constructor
  · exact (C6_autodetect noCaps ["\x7b\x7d"]).2 0 (JsonParser noCaps) rfl
      (by decide) (by decide) (by decide)
  · exact (C6_autodetect noCaps ["plain text"]).1 (by decide)

lemma jumpFind_eq_findIdx (q : String) (l : List LogEntry) :
    ∀ k : Nat, jumpFind q l k = l.findIdx? (jumpMatches q) k := by
  induction l with
  | nil => intro k; rfl
  | cons e rest ih =>
    intro k
    unfold jumpFind
    rw [List.findIdx?_cons]
    rcases hts : e.timestamp with _ | ts <;> simp only [hts, jumpMatches]
    · by_cases hc : containsSub e.raw q <;> simp [hc, ih (k + 1)]
    · by_cases h1 : containsSub ts q
      · simp [h1]
      · by_cases h2 : containsSub e.raw q <;> simp [h1, h2, ih (k + 1)]

/-- Counterexample to C7 as stated: the only visible entry has a
timestamp that does not contain the query, so per the claim no entry
matches and the frozen flag should stay unchanged (false); yet the code
also tries the raw text, hits, and freezes. -/
theorem C7_counterexample :
    (App.new.add_log eStamped).visible_logs = [eStamped] ∧
      eStamped.timestamp = some "10:00" ∧
      containsSub "10:00" "boom" = false ∧
      (App.new.add_log eStamped).frozen = false ∧
      ((App.new.add_log eStamped).jump_to_time "boom").frozen = true := by
  decide

/-- C7 (amended): the time jump scans the visible set in order and stops
at the first entry whose timestamp (when present) contains the query OR
whose raw text contains it — the raw text is also tried when a timestamp
is present but does not match; on a hit the cursor moves to that visible
ordinal and frozen is set, otherwise the state is unchanged. -/
theorem C7_time_jump :
    ∀ (a : App) (q : String),
      a.jump_to_time q =
        match a.visible_logs.findIdx? (jumpMatches q) with
        | some idx => { a with selected_index := idx, frozen := true }
        | none => a := by
  intro a q
  unfold App.jump_to_time
  rw [jumpFind_eq_findIdx q a.visible_logs 0]

/-- C8: every parser of the registry, on every line and every capture
outcome, produces an entry whose raw field is the input line itself. -/
theorem C8_raw_roundtrip :
    ∀ (caps : RegexCaps) (line : String),
      ((JsonParser caps).parse line).raw = line ∧
        ((LaravelParser caps).parse line).raw = line ∧
        ((DjangoParser caps).parse line).raw = line ∧
        ((GoLogParser caps).parse line).raw = line ∧
        ((NginxApacheParser caps).parse line).raw = line ∧
        (PlainParser.parse line).raw = line := by
  intro caps line
  refine ⟨rfl, ?_, ?_, ?_, ?_, rfl⟩
  · rcases h : caps.laravel line with _ | ⟨ts, lvl, msg⟩ <;>
      simp [LaravelParser, h, fallback_parse]
  · rcases h : caps.django line with _ | ⟨ts, lvl, logger, msg⟩ <;>
      simp [DjangoParser, h, fallback_parse]
  · rcases h : caps.go_slog line with _ | ⟨ts, lvl, msg⟩ <;>
      rcases h2 : caps.go_std line with _ | ⟨ts2, rest2⟩ <;>
        simp [GoLogParser, h, h2, fallback_parse]
  · rcases h : caps.nginx line with _ | ⟨host, ts, req, status, size⟩ <;>
      simp [NginxApacheParser, h, fallback_parse]

/-- Counterexample to C9 as stated: after a horizontal scroll of 20,
clearing the buffer leaves horizontal_scroll at 20, not 0. -/
theorem C9_counterexample :
    ((App.new.scroll_right).clear_logs).horizontal_scroll = 20 ∧
      (20 : Nat) ≠ 0 := by
  decide

/-- C9 (amended): clear_logs empties the ring and resets selected_index
and the vertical scroll_offset to 0; the horizontal scroll offset is left
unchanged. -/
theorem C9_clear :
    ∀ a : App,
      (a.clear_logs).logs = [] ∧
        (a.clear_logs).selected_index = 0 ∧
        (a.clear_logs).scroll_offset = 0 ∧
        (a.clear_logs).horizontal_scroll = a.horizontal_scroll := by
  intro a
  exact ⟨rfl, rfl, rfl, rfl⟩

end Logpulse
